import Mathlib

/-!
# Verification of `util/transaction_test_util.cc` (RandomTransactionInserter)

A shallow embedding of the workload generator and invariant verifier of the
randomized transaction test utility, together with proofs about the embedded
code.  C++ `std::string` values are modelled as `List Char`; `uint64_t`
arithmetic is modelled as `Nat` with explicit reduction modulo `2^64` at the
operations the source performs on 64-bit values; `rocksdb::Status` is
modelled as a plain enumeration mirroring the constructors and predicates the
source uses.  All random draws (`rand_->Next()`, `OneIn`, the shuffles) are
passed in as explicit oracle inputs, and external backend responses
(statuses of Get/Put/Commit/Rollback) are oracle inputs as well, so every
control path of the source is representable.  `assert(...)` is modelled as a
no-op (the source is written for NDEBUG builds: it handles the failure of
conditions it also asserts, e.g. the failure branch after
`s = txn->Commit(); assert(s.ok());` in `DoWriteRandom`).
-/

set_option linter.unusedVariables false

namespace RTI

/-- `2^64`: the modulus of `uint64_t` arithmetic. -/
def W : Nat := 2 ^ 64

/-- `ULONG_MAX` on the LP64 targets this file is compiled for: `2^64 - 1`.
This is the "max sentinel" value rejected by `DBGet` and `Verify`. -/
def UMAX : Nat := 2 ^ 64 - 1

/-- The classified outcomes of `rocksdb::Status` that the source inspects:
`ok`, `IsNotFound`, `Corruption`, `IsBusy`, `IsTimedOut`, `IsTryAgain`,
`IsExpired`, and a representative of every other (unexpected) code. -/
inductive Status where
  | ok
  | notFound
  | corruption
  | busy
  | timedOut
  | tryAgain
  | expired
  | ioError
deriving DecidableEq, Repr

/-- `Status::ok()` -/
def Status.isOk : Status → Bool
  | .ok => true
  | _ => false

/-- `Status::IsNotFound()` -/
def Status.isNotFound : Status → Bool
  | .notFound => true
  | _ => false

/-- `Status::IsBusy()` -/
def Status.isBusy : Status → Bool
  | .busy => true
  | _ => false

/-- `Status::IsTimedOut()` -/
def Status.isTimedOut : Status → Bool
  | .timedOut => true
  | _ => false

/-- `Status::IsTryAgain()` -/
def Status.isTryAgain : Status → Bool
  | .tryAgain => true
  | _ => false

/-- `Status::IsExpired()` -/
def Status.isExpired : Status → Bool
  | .expired => true
  | _ => false

/-- The disjunction `s.IsBusy() || s.IsTimedOut() || s.IsTryAgain()` used by
`DoInsert` to recognize expected write-conflict errors. -/
def Status.isConflict (s : Status) : Bool :=
  s.isBusy || s.isTimedOut || s.isTryAgain

/-! ## KeySpace codec

`DBGet` (lines 139-149) builds the physical key
`snprintf(prefix_buf, 6, "%.4u", set_i + 1)` followed by `ToString(ikey)`,
i.e. the 4-digit zero-padded decimal of `set_i + 1` followed by the plain
decimal of `ikey`.  The source asserts `set_i + 1 <= 9999` before every use,
so the zero-padded field is exactly four characters wide. -/

/-- One decimal digit character, `'0' + d`. -/
def digitChar (d : Nat) : Char := Char.ofNat (48 + d % 10)

/-- The 4-character zero-padded decimal of `n` (`snprintf "%.4u"`), valid for
`n ≤ 9999` (the source asserts `set_i + 1 <= 9999` before every use). -/
def pad4 (n : Nat) : List Char :=
  [digitChar (n / 1000), digitChar (n / 100), digitChar (n / 10), digitChar n]

/-- Decimal digit accumulation used by `natChars`. -/
def natCharsAux : Nat → List Char → List Char
  | 0, acc => acc
  | n + 1, acc => natCharsAux ((n + 1) / 10) (digitChar ((n + 1) % 10) :: acc)
decreasing_by exact Nat.div_lt_self (Nat.succ_pos n) (by omega)

/-- The decimal text of `n`, as `ToString` (i.e. `std::to_string`) produces
for an unsigned value. -/
def natChars (n : Nat) : List Char :=
  if n = 0 then ['0'] else natCharsAux n []

/-- `full_key = [4-digit zero-padded set_i+1][decimal ikey]`
(`DBGet`, lines 141-149). -/
def encode (setI key : Nat) : List Char :=
  pad4 (setI + 1) ++ natChars key

/-- Parse a decimal digit string (the left fold computed by reading decimal
text most-significant digit first). -/
def decodeNat (l : List Char) : Nat :=
  l.foldl (fun a c => a * 10 + (c.toNat - 48)) 0

/-- Recover the set of a physical key from its first four characters
(the prefix-matching decode used by `Verify`'s scan, line 649). -/
def decodeSetOf (key : List Char) : Nat :=
  decodeNat (key.take 4) - 1

/-! ### Codec lemmas -/

theorem digitChar_toNat (d : Nat) : (digitChar d).toNat = 48 + d % 10 := by
  have h10 : d % 10 < 10 := Nat.mod_lt _ (by omega)
  have : ∀ m, m < 10 → (Char.ofNat (48 + m)).toNat = 48 + m := by decide
  simpa [digitChar] using this (d % 10) h10

@[simp] theorem pad4_length (n : Nat) : (pad4 n).length = 4 := rfl

theorem decodeNat_pad4 {n : Nat} (h : n ≤ 9999) : decodeNat (pad4 n) = n := by
  simp only [decodeNat, pad4, List.foldl_cons, List.foldl_nil, digitChar_toNat]
  omega

theorem pad4_inj {m n : Nat} (hm : m ≤ 9999) (hn : n ≤ 9999)
    (h : pad4 m = pad4 n) : m = n := by
  have := congrArg decodeNat h
  rwa [decodeNat_pad4 hm, decodeNat_pad4 hn] at this

theorem encode_take4 (setI key : Nat) :
    (encode setI key).take 4 = pad4 (setI + 1) := by
  have h : (encode setI key).take 4
      = (pad4 (setI + 1) ++ natChars key).take (pad4 (setI + 1)).length := by
    simp [encode]
  rw [h, List.take_left]

theorem natCharsAux_append (n : Nat) (acc : List Char) :
    natCharsAux n acc = natCharsAux n [] ++ acc := by
  induction n using Nat.strong_induction_on generalizing acc with
  | _ n ih =>
    match n with
    | 0 => simp [natCharsAux]
    | m + 1 =>
      rw [natCharsAux, natCharsAux,
        ih ((m + 1) / 10) (Nat.div_lt_self (Nat.succ_pos m) (by omega)),
        ih ((m + 1) / 10) (Nat.div_lt_self (Nat.succ_pos m) (by omega))
          [digitChar ((m + 1) % 10)]]
      simp

theorem decodeNat_from_natCharsAux (n : Nat) (a : Nat) :
    (natCharsAux n []).foldl (fun a c => a * 10 + (c.toNat - 48)) a
      = a * 10 ^ (natCharsAux n []).length + n := by
  induction n using Nat.strong_induction_on generalizing a with
  | _ n ih =>
    match n with
    | 0 => simp [natCharsAux]
    | m + 1 =>
      have hstep : natCharsAux (m + 1) []
          = natCharsAux ((m + 1) / 10) [] ++ [digitChar ((m + 1) % 10)] := by
        rw [natCharsAux, natCharsAux_append]
      have hlt : (m + 1) / 10 < m + 1 := Nat.div_lt_self (Nat.succ_pos m) (by omega)
      rw [hstep, List.foldl_append, ih _ hlt, List.length_append]
      simp only [List.foldl_cons, List.foldl_nil, digitChar_toNat,
        List.length_cons, List.length_nil, pow_succ]
      have hr : (m + 1) % 10 % 10 = (m + 1) % 10 :=
        Nat.mod_eq_of_lt (Nat.mod_lt _ (by omega))
      have hdm : (m + 1) / 10 * 10 + (m + 1) % 10 = m + 1 := by omega
      have hsimp : 48 + (m + 1) % 10 % 10 - 48 = (m + 1) % 10 := by omega
      rw [hsimp]
      have : (a * 10 ^ (natCharsAux ((m + 1) / 10) []).length + (m + 1) / 10) * 10
            + (m + 1) % 10
          = a * (10 ^ (natCharsAux ((m + 1) / 10) []).length * 10)
            + ((m + 1) / 10 * 10 + (m + 1) % 10) := by ring
      rw [this, hdm]

theorem decodeNat_natChars (n : Nat) : decodeNat (natChars n) = n := by
  by_cases h : n = 0
  · subst h; decide
  · rw [natChars, if_neg h, decodeNat, decodeNat_from_natCharsAux]
    simp

theorem natChars_inj {m n : Nat} (h : natChars m = natChars n) : m = n := by
  have := congrArg decodeNat h
  rwa [decodeNat_natChars, decodeNat_natChars] at this

theorem encode_inj {s1 k1 s2 k2 : Nat} (h1 : s1 ≤ 9998) (h2 : s2 ≤ 9998)
    (h : encode s1 k1 = encode s2 k2) : s1 = s2 ∧ k1 = k2 := by
  have htake := congrArg (List.take 4) h
  rw [encode_take4, encode_take4] at htake
  have hs : s1 = s2 := by
    have := pad4_inj (m := s1 + 1) (n := s2 + 1) (by omega) (by omega) htake
    omega
  subst hs
  refine ⟨rfl, ?_⟩
  have hk : natChars k1 = natChars k2 := by
    have := h
    rw [encode, encode] at this
    exact List.append_cancel_left this
  exact natChars_inj hk

theorem encode_ne_of_set_ne {s1 k1 s2 k2 : Nat} (h1 : s1 ≤ 9998) (h2 : s2 ≤ 9998)
    (hne : s1 ≠ s2) : encode s1 k1 ≠ encode s2 k2 := by
  intro h
  exact hne (encode_inj h1 h2 h).1

/-- C7: for every set in `[0, 9999)` and every key, the physical key is the
4-digit zero-padded decimal of `set+1` followed by the decimal of `key`;
the first 4 characters recover the original set, and two pairs with
different sets always give distinct physical keys. -/
theorem c7_encode_roundtrip_and_disjoint :
    (∀ s k, s < 9999 →
      encode s k = pad4 (s + 1) ++ natChars k ∧
      (encode s k).take 4 = pad4 (s + 1) ∧
      decodeSetOf (encode s k) = s) ∧
    (∀ s1 k1 s2 k2, s1 < 9999 → s2 < 9999 → s1 ≠ s2 →
      encode s1 k1 ≠ encode s2 k2) := by
  constructor
  · intro s k hs
    refine ⟨rfl, encode_take4 s k, ?_⟩
    rw [decodeSetOf, encode_take4, decodeNat_pad4 (by omega)]
    omega
  · intro s1 k1 s2 k2 h1 h2 hne
    exact encode_ne_of_set_ne (by omega) (by omega) hne

/-- Witness for C7 at concrete inputs. -/
theorem c7_witness :
    decodeSetOf (encode 7 123) = 7 ∧ encode 3 5 ≠ encode 4 5 :=
  ⟨(c7_encode_roundtrip_and_disjoint.1 7 123 (by decide)).2.2,
   c7_encode_roundtrip_and_disjoint.2 3 5 4 5 (by decide) (by decide) (by decide)⟩

/-! ## The database store

The database contents visible to `Verify` and to the single-threaded
harness: an association list from physical keys to the stored counter
value.  Values are stored by the source as decimal text and re-read with
`std::stoull`; that round-trip is the identity on the decoded `uint64_t`,
so values are carried as `Nat` (always `< 2^64`).  Key order in the list is
immaterial: every consumer below either looks up a single key or folds a
commutative mod-`2^64` sum over the keys matching one set's 4-character
prefix (the code's iterator visits the same key multiset, in sorted
order). -/

abbrev Store := List (List Char × Nat)

/-- `db->Get(key)`: the value stored at `key`, if present. -/
def storeGet (st : Store) (key : List Char) : Option Nat :=
  (st.find? (fun e => decide (e.1 = key))).map Prod.snd

/-- `Put(key, v)` as applied to the committed database: overwrite any
existing entry for `key`. -/
def storePut (st : Store) (key : List Char) (v : Nat) : Store :=
  (key, v) :: st.filter (fun e => decide (e.1 ≠ key))

/-- The 4-character set marker `snprintf("%.4u", set_i + 1)` built by
`Verify` (line 626) and `DBGet` (line 144). -/
def setPre (setI : Nat) : List Char := pad4 (setI + 1)

/-- Whether a physical key belongs to `set_i`:
`key.ToString().compare(0, 4, prefix_buf) == 0` (line 649). -/
def keyInSet (key : List Char) (setI : Nat) : Bool :=
  decide (key.take 4 = setPre setI)

/-- The plain (unreduced) sum of the values stored under a set's 4-char
marker. -/
def setSum (st : Store) (setI : Nat) : Nat :=
  ((st.filter (fun e => keyInSet e.1 setI)).map Prod.snd).sum

/-- The scan of one set by `Verify`'s iterator path (lines 644-662): visit
every key carrying the set's 4-char marker; `none` when some visited value
decodes to `0` or `ULONG_MAX` (the early `return Status::Corruption()`,
line 657), otherwise `some` of the running `uint64_t` total. -/
def scanGo : List (List Char × Nat) → Nat → Option Nat
  | [], t => some t
  | e :: rest, t =>
      if e.2 = 0 ∨ e.2 = UMAX then none
      else scanGo rest ((t + e.2) % W)

/-- Iterator-path total for one set (lines 644-662). -/
def scanSet (st : Store) (setI : Nat) : Option Nat :=
  scanGo (st.filter (fun e => keyInSet e.1 setI)) 0

/-- `Verify`'s point-lookup path for one set (lines 631-643): for every
`k < num_keys_per_set`, `DBGet` with `txn == nullptr` reads the stored
value (a sentinel value makes `DBGet` report Corruption, which `Verify`
only `assert`s on — a no-op for NDEBUG); an absent key is read as 0; the
loop adds `int_value` to the `uint64_t` total in every case. -/
def pointTotal (st : Store) (setI : Nat) (numKeysPerSet : Nat) : Nat :=
  (List.range numKeysPerSet).foldl
    (fun t k => (t + ((storeGet st (encode setI k)).getD 0)) % W) 0

/-! ## The embedded `Verify` (lines 604-680) -/

/-- Intermediate result of `Verify`'s per-set loop: the status it decides,
the sets whose total was recorded into `prev_total` (in visitation order),
the mismatch diagnostics written to stdout (tuples
`(prev_i, prev_total, set_i, total)`, lines 665-668), and whether the loop
ran to completion (only then does control reach the `ReleaseSnapshot`
call). -/
structure VerifyOut where
  status : Status
  visited : List Nat
  log : List (Nat × Nat × Nat × Nat)
  completed : Bool
deriving DecidableEq, Repr

/-- The per-set loop of `Verify` (lines 621-674).  `visits` pairs each set
of the shuffled `set_vec` with that iteration's `rand->OneIn(10)` draw;
`hasRand` models `rand != nullptr`; `prev` carries `(prev_i, prev_total)`
once `prev_assigned` is true. -/
def verifyGo (st : Store) (numKeysPerSet : Nat) (hasRand : Bool) :
    List (Nat × Bool) → Option (Nat × Nat) → VerifyOut
  | [], _ => ⟨.ok, [], [], true⟩
  | (setI, draw) :: rest, prev =>
      let usePoint := decide (numKeysPerSet ≠ 0) && hasRand && draw
      let tot? : Option Nat :=
        if usePoint then some (pointTotal st setI numKeysPerSet)
        else scanSet st setI
      match tot? with
      | none => ⟨.corruption, [], [], false⟩
      | some total =>
          match prev with
          | some (prevI, prevTotal) =>
              if total ≠ prevTotal then
                ⟨.corruption, [], [(prevI, prevTotal, setI, total)], false⟩
              else
                let r := verifyGo st numKeysPerSet hasRand rest (some (setI, total))
                ⟨r.status, setI :: r.visited, r.log, r.completed⟩
          | none =>
              let r := verifyGo st numKeysPerSet hasRand rest (some (setI, total))
              ⟨r.status, setI :: r.visited, r.log, r.completed⟩

/-- The observable outcome of `RandomTransactionInserter::Verify`:
the returned status, plus the snapshot bookkeeping made explicit —
`snapAcquired` records the `GetSnapshot` call (line 613, taken iff
`take_snapshot`), `snapReleased` the `ReleaseSnapshot` call (line 676,
reached only when the per-set loop runs to completion; the two early
`return Status::Corruption()` statements skip it). -/
structure VerifyResult where
  status : Status
  visited : List Nat
  log : List (Nat × Nat × Nat × Nat)
  snapAcquired : Bool
  snapReleased : Bool
deriving DecidableEq, Repr

/-- `RandomTransactionInserter::Verify` (lines 604-680).  The shuffled
`set_vec` and the per-iteration `OneIn(10)` draws enter as the oracle list
`visits`; theorems about full verification constrain `visits.map Prod.fst`
to be a permutation of `List.range num_sets`. -/
def Verify (st : Store) (numKeysPerSet : Nat) (takeSnapshot hasRand : Bool)
    (visits : List (Nat × Bool)) : VerifyResult :=
  let r := verifyGo st numKeysPerSet hasRand visits none
  ⟨r.status, r.visited, r.log, takeSnapshot, takeSnapshot && r.completed⟩

/-! ## Claims C4, C5, C9 about `Verify` -/

/-- C4 counterexample: a stored value decoding to `0` under set 0's 4-char
marker, verified through the point-lookup path (`num_keys_per_set = 1`,
`rand` present, `OneIn(10)` draw true): `Verify` does not stop and does not
return Corruption — it returns OK.  (The sentinel check on this path is
only a debug `assert`, lines 640-641.) -/
theorem c4_counterexample :
    storeGet [(encode 0 0, 0)] (encode 0 0) = some 0 ∧
    (Verify [(encode 0 0, 0)] 1 false true [(0, true)]).status = Status.ok ∧
    (Verify [(encode 0 0, 0)] 1 false true [(0, true)]).status ≠ Status.corruption :=
  ⟨by decide, by decide, by decide⟩

/-- C4 (amended): on the range-scan (iterator) path a stored value decoding
to `0` or the max sentinel makes `Verify` return Corruption at once, with no
further set visited; the point-lookup path, however, never aborts: its
`DBGet` corruption signal is only `assert`ed on, so a lone point-looked-up
set yields OK whatever values it stores. -/
theorem c4_scan_aborts_point_does_not :
    (∀ (st : Store) nkps hasRand setI draw rest prev,
      (decide (nkps ≠ 0) && hasRand && draw) = false →
      scanSet st setI = none →
      verifyGo st nkps hasRand ((setI, draw) :: rest) prev
        = ⟨Status.corruption, [], [], false⟩) ∧
    (∀ (st : Store) nkps setI, nkps ≠ 0 →
      (Verify st nkps false true [(setI, true)]).status = Status.ok) := by
  constructor
  · intro st nkps hasRand setI draw rest prev hcond hscan
    cases draw with
    | false => simp [verifyGo, hscan]
    | true =>
      cases hasRand with
      | false => simp [verifyGo, hscan]
      | true =>
        have hnk : nkps = 0 := by
          by_contra hnk
          simp [hnk] at hcond
        subst hnk
        simp [verifyGo, hscan]
  · intro st nkps setI hn
    simp [Verify, verifyGo, hn]

/-- Witness for the amended C4 at concrete inputs. -/
theorem c4_witness :
    verifyGo [(encode 0 0, 0)] 0 false [(0, false)] none
      = ⟨Status.corruption, [], [], false⟩ ∧
    (Verify [(encode 0 0, 0)] 1 false true [(0, true)]).status = Status.ok :=
  ⟨c4_scan_aborts_point_does_not.1 [(encode 0 0, 0)] 0 false 0 false [] none
      (by decide) (by decide),
   c4_scan_aborts_point_does_not.2 [(encode 0 0, 0)] 1 0 (by decide)⟩

/-- C5 counterexample: two runs with different offending set pairs and
totals — `(0,5)` vs `(1,7)`, and `(0,11)` vs `(2,19)` — return *equal*
status values, so the returned Corruption carries neither the set indices
nor the totals; those appear only in the stdout diagnostic record. -/
theorem c5_counterexample :
    (Verify [(encode 0 0, 5), (encode 1 0, 7)] 0 false false
        [(0, false), (1, false)]).status = Status.corruption ∧
    (Verify [(encode 0 0, 11), (encode 2 0, 19)] 0 false false
        [(0, false), (2, false)]).status = Status.corruption ∧
    (Verify [(encode 0 0, 5), (encode 1 0, 7)] 0 false false
        [(0, false), (1, false)]).status
      = (Verify [(encode 0 0, 11), (encode 2 0, 19)] 0 false false
        [(0, false), (2, false)]).status ∧
    (Verify [(encode 0 0, 5), (encode 1 0, 7)] 0 false false
        [(0, false), (1, false)]).log
      ≠ (Verify [(encode 0 0, 11), (encode 2 0, 19)] 0 false false
        [(0, false), (2, false)]).log :=
  ⟨by decide, by decide, by decide, by decide⟩

/-- C5 (amended): when a set's total differs from the immediately preceding
set's total (in visitation order), `Verify` returns at once with a *bare*
Corruption status; the two offending set indices and their totals are
emitted on the stdout diagnostic record, not carried in the returned
value.  Stated for both total-computation paths. -/
theorem c5_mismatch_bare_corruption :
    (∀ (st : Store) nkps hasRand setI draw rest prevI prevTotal total,
      (decide (nkps ≠ 0) && hasRand && draw) = false →
      scanSet st setI = some total →
      total ≠ prevTotal →
      verifyGo st nkps hasRand ((setI, draw) :: rest) (some (prevI, prevTotal))
        = ⟨Status.corruption, [], [(prevI, prevTotal, setI, total)], false⟩) ∧
    (∀ (st : Store) nkps setI rest prevI prevTotal,
      nkps ≠ 0 →
      pointTotal st setI nkps ≠ prevTotal →
      verifyGo st nkps true ((setI, true) :: rest) (some (prevI, prevTotal))
        = ⟨Status.corruption, [],
            [(prevI, prevTotal, setI, pointTotal st setI nkps)], false⟩) := by
  constructor
  · intro st nkps hasRand setI draw rest prevI prevTotal total hcond hscan hne
    cases draw with
    | false => simp [verifyGo, hscan, hne]
    | true =>
      cases hasRand with
      | false => simp [verifyGo, hscan, hne]
      | true =>
        have hnk : nkps = 0 := by
          by_contra hnk
          simp [hnk] at hcond
        subst hnk
        simp [verifyGo, hscan, hne]
  · intro st nkps setI rest prevI prevTotal hn hne
    simp [verifyGo, hn, hne]

/-- Witness for the amended C5 at concrete inputs. -/
theorem c5_witness :
    verifyGo [(encode 0 0, 5), (encode 1 0, 7)] 0 false [(1, false)] (some (0, 5))
      = ⟨Status.corruption, [], [(0, 5, 1, 7)], false⟩ :=
  c5_mismatch_bare_corruption.1 [(encode 0 0, 5), (encode 1 0, 7)] 0 false 1 false []
    0 5 7 (by decide) (by decide) (by decide)

/-- C9: with `take_snapshot` true, the snapshot acquired before scanning is
released only when the per-set loop runs to completion.  Both early
Corruption returns — the sentinel found by the iterator (second conjunct)
and the cross-set total mismatch (first conjunct) — return without
releasing it, so the claimed every-exit-path release fails; the OK path
(third conjunct) does release it. -/
theorem c9_snapshot_leak_on_corruption :
    ((Verify [(encode 0 0, 5), (encode 1 0, 7)] 0 true false
        [(0, false), (1, false)]).status = Status.corruption ∧
      (Verify [(encode 0 0, 5), (encode 1 0, 7)] 0 true false
        [(0, false), (1, false)]).snapAcquired = true ∧
      (Verify [(encode 0 0, 5), (encode 1 0, 7)] 0 true false
        [(0, false), (1, false)]).snapReleased = false) ∧
    ((Verify [(encode 0 0, 0)] 0 true false [(0, false)]).status
        = Status.corruption ∧
      (Verify [(encode 0 0, 0)] 0 true false [(0, false)]).snapAcquired = true ∧
      (Verify [(encode 0 0, 0)] 0 true false [(0, false)]).snapReleased = false) ∧
    ((Verify [(encode 0 0, 5), (encode 1 0, 5)] 0 true false
        [(0, false), (1, false)]).status = Status.ok ∧
      (Verify [(encode 0 0, 5), (encode 1 0, 5)] 0 true false
        [(0, false), (1, false)]).snapReleased = true) :=
  ⟨⟨by decide, by decide, by decide⟩, ⟨by decide, by decide, by decide⟩,
    ⟨by decide, by decide⟩⟩

/-! ## The embedded `DoInsert` for `Transaction` backends (lines 485-601)

The backend under test is external, so its replies (Get/Put/Prepare/Commit/
Rollback statuses and read values) and all random draws enter as oracle
inputs; the embedding reproduces the source's control flow over them. -/

/-- Oracle inputs for one iteration of the per-set loop of `DoInsert`
(lines 499-538): the set (from the shuffled `set_vec`), the
`rand_->Next() % num_keys_` key draw, the `rand_->OneIn(2)` get-for-update
draw, and the backend's replies.  `getStatus`/`getValue` describe
`txn->Get`/`txn->GetForUpdate`/`db->Get`: when the status is OK,
`getValue` is the decoded (`std::stoull`) stored value.  `putStatus` is
the backend's reply to `txn->Put`. -/
structure LoopIter where
  setI : Nat
  keyDraw : Nat
  gfuDraw : Bool
  getStatus : Status
  getValue : Nat
  putStatus : Status
deriving DecidableEq, Repr

/-- The outcome of `DBGet` (lines 134-176) on the backend's raw reply:
the effective status, `int_value`, and whether the sentinel branch set
`*unexpected_error` (line 166).  A present value of `0` or `ULONG_MAX`
becomes Corruption; an absent key reads as value `0` with status OK. -/
def dbGetEff (getStatus : Status) (getValue : Nat) : Status × Nat × Bool :=
  if getStatus = .ok then
    if getValue = 0 ∨ getValue = UMAX then (.corruption, getValue, true)
    else (.ok, getValue, false)
  else if getStatus = .notFound then (.ok, 0, false)
  else (getStatus, 0, false)

/-- State of the per-set loop at exit: the C++ `s` and `unexpected_error`
variables, and the sets whose `DBGet` was actually executed, in execution
order. -/
structure LoopOut where
  status : Status
  unexpected : Bool
  getsRead : List Nat
deriving DecidableEq, Repr

/-- The per-set loop of the pessimistic/optimistic `DoInsert`
(lines 499-538), threading the C++ `s` (param `s0`) and `unexpected_error`
(param `unexp`).  The written key `encode set_i (keyDraw % num_keys)` and
value `(int_value + incr) % 2^64` do not influence this control flow (the
single-threaded store semantics below computes them); only the statuses
do. -/
def insertLoop (hasTxn isOpt : Bool) :
    List LoopIter → Status → Bool → LoopOut
  | [], s0, unexp => ⟨s0, unexp, []⟩
  | it :: rest, _s0, unexp =>
      let gfu := hasTxn && it.gfuDraw
      let g := dbGetEff it.getStatus it.getValue
      let s := g.1
      let unexp1 := unexp || g.2.2
      if s.isOk = false then
        -- lines 507-516: break; unexpected unless an expected conflict on a
        -- non-optimistic transaction
        if isOpt || !(s.isBusy || s.isTimedOut || s.isTryAgain) then
          ⟨s, true, [it.setI]⟩
        else
          ⟨s, unexp1, [it.setI]⟩
      else if hasTxn then
        let ps := it.putStatus
        if !gfu && (ps.isBusy || ps.isTimedOut) then
          -- lines 523-526: put may conflict when the get took no lock: break,
          -- not unexpected
          ⟨ps, unexp1, [it.setI]⟩
        else if ps.isOk = false then
          -- lines 527-532: mark unexpected_error; NO break — the loop goes on
          let r := insertLoop hasTxn isOpt rest ps true
          ⟨r.status, r.unexpected, it.setI :: r.getsRead⟩
        else
          let r := insertLoop hasTxn isOpt rest ps unexp1
          ⟨r.status, r.unexpected, it.setI :: r.getsRead⟩
      else
        -- line 534: batch.Put leaves s untouched (s is OK here)
        let r := insertLoop hasTxn isOpt rest s unexp1
        ⟨r.status, r.unexpected, it.setI :: r.getsRead⟩

/-- Oracle for the finalization of `DoInsert` (lines 540-589):
`prepSkipDraw` is `rand_->OneIn(10)` (line 542: Prepare runs iff the
transaction is not optimistic and the draw is false), `rollbackDraw` is
`rand_->OneIn(20)` (line 547: Commit iff false, else the deliberate
Rollback), plus the backend's statuses for Prepare, Commit, Rollback and
the no-transaction `db->Write`. -/
structure FinOracle where
  prepSkipDraw : Bool
  rollbackDraw : Bool
  prepareStatus : Status
  commitStatus : Status
  rollbackStatus : Status
  writeStatus : Status
deriving DecidableEq, Repr

/-- Observable outcome of one `DoInsert` run: the returned bool
(line 600), the final `unexpected_error` flag, the final status `s`
(deciding the success/failure counters, lines 591-595), whether `Commit`
was attempted (line 548), whether the deliberate rollback branch ran
(line 551), and the loop's `getsRead` trace. -/
structure InsertOut where
  ret : Bool
  unexpected : Bool
  sFinal : Status
  commitAttempted : Bool
  rollbackDrawn : Bool
  getsRead : List Nat
deriving DecidableEq, Repr

/-- `RandomTransactionInserter::DoInsert(DB*, Transaction*, bool)`
(lines 485-601). -/
def doInsert (hasTxn isOpt : Bool) (iters : List LoopIter)
    (fin : FinOracle) : InsertOut :=
  let L := insertLoop hasTxn isOpt iters .ok false
  if L.status.isOk then
    if hasTxn then
      -- lines 542-546: optional Prepare; its status is overwritten just below
      let _sPrep := if !isOpt && !fin.prepSkipDraw then fin.prepareStatus
                    else L.status
      -- lines 547-553
      let s := if !fin.rollbackDraw then fin.commitStatus else fin.rollbackStatus
      -- lines 556-576: classification of a non-OK s
      let unexp :=
        if s.isOk then L.unexpected
        else if isOpt then L.unexpected || !(s.isBusy || s.isTimedOut || s.isTryAgain)
        else L.unexpected || !s.isExpired
      ⟨!unexp, unexp, s, !fin.rollbackDraw, fin.rollbackDraw, L.getsRead⟩
    else
      -- lines 577-584: submit the deferred batch as one write
      let s := fin.writeStatus
      let unexp := L.unexpected || !s.isOk
      ⟨!unexp, unexp, s, false, false, L.getsRead⟩
  else
    -- lines 585-589: failed loop; the rollback sits inside assert(...), a
    -- no-op under NDEBUG, so nothing further happens to s
    ⟨!L.unexpected, L.unexpected, L.status, false, false, L.getsRead⟩

/-- `success_count_` increment of one run (lines 591-592). -/
def succDelta (s : Status) : Nat := if s.isOk then 1 else 0

/-- `failure_count_` increment of one run (lines 593-594). -/
def failDelta (s : Status) : Nat := if s.isOk then 0 else 1

/-! ## The embedded `DoInsert` for `TOTransaction` backends (lines 393-482) -/

/-- The per-set loop of the timestamp-ordered `DoInsert` (lines 408-444).
Shapes as `insertLoop`, with the differences of the source: there is no
get-for-update (`gfuDraw` is unread), no `is_optimistic`, and the Put
break on busy/timed-out (line 431) is unconditional. -/
def insertLoopTO (hasTxn : Bool) :
    List LoopIter → Status → Bool → LoopOut
  | [], s0, unexp => ⟨s0, unexp, []⟩
  | it :: rest, _s0, unexp =>
      let g := dbGetEff it.getStatus it.getValue
      let s := g.1
      let unexp1 := unexp || g.2.2
      if s.isOk = false then
        -- lines 415-424
        if !(s.isBusy || s.isTimedOut || s.isTryAgain) then
          ⟨s, true, [it.setI]⟩
        else
          ⟨s, unexp1, [it.setI]⟩
      else if hasTxn then
        let ps := it.putStatus
        if ps.isBusy || ps.isTimedOut then
          -- lines 431-434: break
          ⟨ps, unexp1, [it.setI]⟩
        else if ps.isOk = false then
          -- lines 435-440: mark unexpected_error; NO break
          let r := insertLoopTO hasTxn rest ps true
          ⟨r.status, r.unexpected, it.setI :: r.getsRead⟩
        else
          let r := insertLoopTO hasTxn rest ps unexp1
          ⟨r.status, r.unexpected, it.setI :: r.getsRead⟩
      else
        -- with no transaction this variant performs no write at all
        let r := insertLoopTO hasTxn rest s unexp1
        ⟨r.status, r.unexpected, it.setI :: r.getsRead⟩

/-- Oracle for the finalization of the timestamp-ordered `DoInsert`
(lines 446-470): the `OneIn(20)` rollback draw, the
`SetCommitTimeStamp` reply (line 456, overwritten immediately), and the
Commit/Rollback statuses. -/
structure FinOracleTO where
  rollbackDraw : Bool
  tsStatus : Status
  commitStatus : Status
  rollbackStatus : Status
deriving DecidableEq, Repr

/-- `RandomTransactionInserter::DoInsert(DB*, TOTransaction*)`
(lines 393-482).  Unlike the `Transaction` variant, a non-OK Commit status
is never classified here: after the loop there is no branch setting
`unexpected_error` (lines 446-476 contain only asserts). -/
def doInsertTO (hasTxn : Bool) (iters : List LoopIter)
    (fin : FinOracleTO) : InsertOut :=
  let L := insertLoopTO hasTxn iters .ok false
  if L.status.isOk then
    if hasTxn then
      let _sTs := fin.tsStatus
      let s := if !fin.rollbackDraw then fin.commitStatus else fin.rollbackStatus
      ⟨!L.unexpected, L.unexpected, s, !fin.rollbackDraw, fin.rollbackDraw,
        L.getsRead⟩
    else
      ⟨!L.unexpected, L.unexpected, L.status, false, false, L.getsRead⟩
  else
    -- lines 466-470: rollback inside assert(...), no-op under NDEBUG
    ⟨!L.unexpected, L.unexpected, L.status, false, false, L.getsRead⟩

/-! ## The embedded `DoWriteRandom` (lines 259-391) -/

/-- Lines 267-272: the number of sets one `DoWriteRandom` transaction
visits, `rand_->Next() % num_sets_ + 1`. -/
def wrNumSets (numSets draw : Nat) : Nat := draw % numSets + 1

/-- Lines 268-272: the visitation plan before shuffling,
`std::iota(set_vec.begin(), set_vec.end(), 0)` over `wrNumSets` entries;
`std::random_shuffle` then permutes it, so the executed plan is any
permutation of this list. -/
def wrPlanBase (numSets draw : Nat) : List Nat :=
  List.range (wrNumSets numSets draw)

/-- Oracle inputs for one iteration of `DoWriteRandom`'s loop
(lines 277-356): the set (from the shuffled plan), the op-choosing draw
`rand_->Next() % 100`, the key draw, and the backend's status for
whichever of Get/Delete/Put runs.  The column-family handle chosen from
`rand_key` only selects the argument of the call, never the control flow,
so it is not carried. -/
structure WrIter where
  setI : Nat
  rvDraw : Nat
  keyDraw : Nat
  opStatus : Status
deriving DecidableEq, Repr

/-- Loop state at exit for `DoWriteRandom`: the C++ `s` variable, the sets
whose iteration body ran (in order), and the accumulated
`bytes_inserted`. -/
structure WrLoopOut where
  status : Status
  visited : List Nat
  bytes : Nat
deriving DecidableEq, Repr

/-- The per-set loop of `DoWriteRandom` (lines 277-356).  Each iteration
picks read (`rand_value < readpercent_`), delete
(`< readpercent_ + deletepercent_`) or put; a read error that is neither
OK nor NotFound breaks at once (line 319), a NotFound read is reset to OK
(line 324); delete/put add `key.size() + value_size_` to
`bytes_inserted`; afterwards the `bytes_inserted > 15000000` soft cap
(line 344) and then `!s.ok()` (line 349) break. -/
def wrLoop (readpercent deletepercent numKeys conflictLevel valueSize : Nat) :
    List WrIter → Nat → Status → WrLoopOut
  | [], bytes, s0 => ⟨s0, [], bytes⟩
  | it :: rest, bytes, _s0 =>
      let rv := it.rvDraw % 100
      -- rand_key = Next() % num_keys_, then divided by 10 conflict_level times
      let key := encode it.setI ((it.keyDraw % numKeys) / 10 ^ conflictLevel)
      if rv < readpercent then
        if it.opStatus.isOk = false ∧ it.opStatus.isNotFound = false then
          ⟨it.opStatus, [it.setI], bytes⟩
        else
          -- found or NotFound-reset-to-OK; bytes_inserted unchanged
          if bytes > 15000000 then ⟨.ok, [it.setI], bytes⟩
          else
            let r := wrLoop readpercent deletepercent numKeys conflictLevel
              valueSize rest bytes .ok
            ⟨r.status, it.setI :: r.visited, r.bytes⟩
      else
        -- delete or put: same byte accounting and break structure
        let s := it.opStatus
        let bytes1 := bytes + key.length + valueSize
        if bytes1 > 15000000 then ⟨s, [it.setI], bytes1⟩
        else if s.isOk = false then ⟨s, [it.setI], bytes1⟩
        else
          let r := wrLoop readpercent deletepercent numKeys conflictLevel
            valueSize rest bytes1 s
          ⟨r.status, it.setI :: r.visited, r.bytes⟩

/-- Observable outcome of one `DoWriteRandom` run: the returned bool
(line 389), the final `unexpected_error` flag (line 382), the status that
decides the success/failure counters (line 377), whether Commit was
attempted (line 372) and whether the failure-branch Rollback ran
(line 381), plus the plan prefix actually visited. -/
structure WrResult where
  ret : Bool
  unexpected : Bool
  sCount : Status
  commitAttempted : Bool
  rollbackCalled : Bool
  visited : List Nat
deriving DecidableEq, Repr

/-- `RandomTransactionInserter::DoWriteRandom` (lines 259-391).  After the
loop, Commit runs iff the loop left OK and there is a transaction
(lines 364-374); then `if (s.ok()) success_count_++ else { failure_count_++;
s = txn->Rollback(); unexpected_error = true; }` (lines 377-384) — every
failing run, whatever its status, is marked unexpected. -/
def doWriteRandom (readpercent deletepercent numKeys conflictLevel valueSize : Nat)
    (hasTxn : Bool) (iters : List WrIter)
    (commitStatus rollbackStatus : Status) : WrResult :=
  let L := wrLoop readpercent deletepercent numKeys conflictLevel valueSize
    iters 0 .ok
  let committed := L.status.isOk && hasTxn
  let s := if committed then commitStatus else L.status
  if s.isOk then
    ⟨true, false, s, committed, false, L.visited⟩
  else
    ⟨false, true, s, committed, true, L.visited⟩

/-! ### Status helper lemmas -/

theorem Status.isOk_eq_true_iff (s : Status) : s.isOk = true ↔ s = .ok := by
  cases s <;> simp [Status.isOk]

theorem Status.isOk_eq_false_iff (s : Status) : s.isOk = false ↔ s ≠ .ok := by
  cases s <;> simp [Status.isOk]

theorem dbGetEff_ok_no_unexp {gs : Status} {gv : Nat}
    (h : (dbGetEff gs gv).1 = .ok) : (dbGetEff gs gv).2.2 = false := by
  unfold dbGetEff at *
  split_ifs at * <;> simp_all

/-! ## Claim C2 -/

/-- C2: for a pessimistic (non-optimistic) transactional `DoInsert` whose
per-set loop succeeds (exits with `s` OK and the unexpected flag clear),
a failing Commit status makes the run unexpected exactly when that status
is not Expired: Expired is absorbed, anything else is flagged (and the
run then returns false). -/
theorem c2_pessimistic_commit_classification
    (iters : List LoopIter) (fin : FinOracle)
    (hs : (insertLoop true false iters .ok false).status = .ok)
    (hu : (insertLoop true false iters .ok false).unexpected = false)
    (hrb : fin.rollbackDraw = false)
    (hcs : fin.commitStatus.isOk = false) :
    (doInsert true false iters fin).unexpected = !fin.commitStatus.isExpired ∧
    (doInsert true false iters fin).ret = fin.commitStatus.isExpired := by
  simp [doInsert, hs, hu, hrb, hcs, Status.isOk_eq_true_iff]

/-- Witness for C2 at a concrete input: commit fails Expired after an
empty (trivially successful) loop — not unexpected, run returns true. -/
theorem c2_witness :
    (doInsert true false []
        ⟨false, false, Status.ok, Status.expired, Status.ok, Status.ok⟩).unexpected
      = !(Status.expired).isExpired ∧
    (doInsert true false []
        ⟨false, false, Status.ok, Status.expired, Status.ok, Status.ok⟩).ret
      = (Status.expired).isExpired :=
  c2_pessimistic_commit_classification []
    ⟨false, false, .ok, .expired, .ok, .ok⟩
    (by decide) (by decide) (by decide) (by decide)

/-! ## Claim C6 -/

/-- C6 counterexample: on a pessimistic transaction, set 0's Put returns
an unexpected (non-busy, non-timeout) error, yet set 1's Get is still
executed — the loop is *not* aborted — and the run is marked unexpected. -/
theorem c6_counterexample :
    (insertLoop true false
        [⟨0, 0, true, Status.ok, 5, Status.ioError⟩,
         ⟨1, 0, true, Status.ok, 5, Status.ok⟩] .ok false).getsRead = [0, 1] ∧
    (1 ∈ (insertLoop true false
        [⟨0, 0, true, Status.ok, 5, Status.ioError⟩,
         ⟨1, 0, true, Status.ok, 5, Status.ok⟩] .ok false).getsRead) ∧
    (insertLoop true false
        [⟨0, 0, true, Status.ok, 5, Status.ioError⟩,
         ⟨1, 0, true, Status.ok, 5, Status.ok⟩] .ok false).unexpected = true ∧
    (doInsert true false
        [⟨0, 0, true, Status.ok, 5, Status.ioError⟩,
         ⟨1, 0, true, Status.ok, 5, Status.ok⟩]
        ⟨true, false, Status.ok, Status.ok, Status.ok, Status.ok⟩).unexpected
      = true :=
  ⟨by decide, by decide, by decide, by decide⟩

/-- C6 (amended): in the per-set loop, an error from the *read* aborts the
loop at once (no further set is touched), and when that error is outside
the expected set (an optimistic transaction, or a status that is none of
busy/timed-out/try-again) the run is marked `unexpected_error`; a Put
busy/timeout without a prior get-for-update also aborts, without marking
unexpected; but any other Put failure only marks `unexpected_error` and
the loop continues into the next set's read. -/
theorem c6_read_error_aborts_put_error_continues :
    (∀ (hasTxn isOpt : Bool) (it : LoopIter) (rest : List LoopIter) s0 unexp,
      (dbGetEff it.getStatus it.getValue).1 ≠ .ok →
      (insertLoop hasTxn isOpt (it :: rest) s0 unexp).getsRead = [it.setI] ∧
      ((isOpt = true ∨
          ((dbGetEff it.getStatus it.getValue).1.isBusy
            || (dbGetEff it.getStatus it.getValue).1.isTimedOut
            || (dbGetEff it.getStatus it.getValue).1.isTryAgain) = false) →
        (insertLoop hasTxn isOpt (it :: rest) s0 unexp).unexpected = true)) ∧
    (∀ (isOpt : Bool) (it : LoopIter) (rest : List LoopIter) s0 unexp,
      (dbGetEff it.getStatus it.getValue).1 = .ok →
      it.putStatus.isOk = false →
      (it.gfuDraw = true ∨ (it.putStatus.isBusy || it.putStatus.isTimedOut) = false) →
      (insertLoop true isOpt (it :: rest) s0 unexp).getsRead
          = it.setI :: (insertLoop true isOpt rest it.putStatus true).getsRead ∧
      (insertLoop true isOpt (it :: rest) s0 unexp).unexpected
          = (insertLoop true isOpt rest it.putStatus true).unexpected) ∧
    (∀ (isOpt : Bool) (it : LoopIter) (rest : List LoopIter) s0 unexp,
      (dbGetEff it.getStatus it.getValue).1 = .ok →
      it.gfuDraw = false →
      (it.putStatus.isBusy || it.putStatus.isTimedOut) = true →
      insertLoop true isOpt (it :: rest) s0 unexp
        = ⟨it.putStatus, unexp, [it.setI]⟩) := by
  refine ⟨?_, ?_, ?_⟩
  · intro hasTxn isOpt it rest s0 unexp hget
    have hfalse : (dbGetEff it.getStatus it.getValue).1.isOk = false :=
      (Status.isOk_eq_false_iff _).mpr hget
    constructor
    · simp [insertLoop, hfalse, apply_ite]
    · intro hcls
      rcases hcls with h | h
      · simp [insertLoop, hfalse, h]
      · simp only [Bool.or_eq_false_iff] at h
        simp [insertLoop, hfalse, h.1.1, h.1.2, h.2]
  · intro isOpt it rest s0 unexp hget hput hcase
    have hok : (dbGetEff it.getStatus it.getValue).1.isOk = true := by
      rw [Status.isOk_eq_true_iff]; exact hget
    rcases hcase with hgfu | hnb
    · constructor <;> simp [insertLoop, hok, hgfu, hput]
    · constructor <;> simp [insertLoop, hok, hnb, hput]
  · intro isOpt it rest s0 unexp hget hgfu hb
    have hok : (dbGetEff it.getStatus it.getValue).1.isOk = true := by
      rw [Status.isOk_eq_true_iff]; exact hget
    have hnu : (dbGetEff it.getStatus it.getValue).2.2 = false :=
      dbGetEff_ok_no_unexp hget
    simp [insertLoop, hok, hgfu, hb, hnu]

/-- Witness for the amended C6 at concrete inputs. -/
theorem c6_witness :
    (insertLoop true true
        [⟨3, 0, false, Status.busy, 0, Status.ok⟩,
         ⟨4, 0, false, Status.ok, 5, Status.ok⟩] .ok false).getsRead = [3] ∧
    (insertLoop true true
        [⟨3, 0, false, Status.busy, 0, Status.ok⟩,
         ⟨4, 0, false, Status.ok, 5, Status.ok⟩] .ok false).unexpected = true ∧
    (insertLoop true false
        [⟨0, 0, true, Status.ok, 5, Status.ioError⟩] .ok false).getsRead
      = 0 :: (insertLoop true false [] Status.ioError true).getsRead ∧
    insertLoop true false [⟨0, 0, false, Status.ok, 5, Status.busy⟩] .ok false
      = ⟨Status.busy, false, [0]⟩ :=
  ⟨(c6_read_error_aborts_put_error_continues.1 true true
      ⟨3, 0, false, Status.busy, 0, Status.ok⟩
      [⟨4, 0, false, Status.ok, 5, Status.ok⟩] .ok false (by decide)).1,
   (c6_read_error_aborts_put_error_continues.1 true true
      ⟨3, 0, false, Status.busy, 0, Status.ok⟩
      [⟨4, 0, false, Status.ok, 5, Status.ok⟩] .ok false (by decide)).2
        (Or.inl rfl),
   (c6_read_error_aborts_put_error_continues.2.1 false
      ⟨0, 0, true, Status.ok, 5, Status.ioError⟩ [] .ok false
      (by decide) (by decide) (Or.inl (by decide))).1,
   c6_read_error_aborts_put_error_continues.2.2 false
      ⟨0, 0, false, Status.ok, 5, Status.busy⟩ [] .ok false
      (by decide) (by decide) (by decide)⟩

/-! ## Claim C3 -/

/-- C3 counterexample: a `DoWriteRandom` run whose only failure is a
Conflict (busy) at Commit — an expected conflict for the
timestamp-ordered family, handled by rolling back — still returns false
and is marked unexpected, against the claim that conflict/rollback
endings return true. -/
theorem c3_counterexample :
    (doWriteRandom 0 0 1 0 1 true [⟨0, 99, 0, Status.ok⟩]
        Status.busy Status.ok).ret = false ∧
    (doWriteRandom 0 0 1 0 1 true [⟨0, 99, 0, Status.ok⟩]
        Status.busy Status.ok).unexpected = true ∧
    (doWriteRandom 0 0 1 0 1 true [⟨0, 99, 0, Status.ok⟩]
        Status.busy Status.ok).rollbackCalled = true ∧
    Status.busy.isConflict = true :=
  ⟨by decide, by decide, by decide, by decide⟩

/-- C3 (amended): every `DoInsert` variant returns `!unexpected_error`,
and with a clean loop the expected-conflict/rollback endings return true —
a conflict-ended loop, the deliberate rollback (with an OK Rollback
reply), an optimistic commit conflict, and, for the timestamp-ordered
`DoInsert`, any commit outcome whatsoever.  `DoWriteRandom`, by contrast,
returns false exactly when the status at its counter update is not OK —
so an expected commit conflict there also returns false. -/
theorem c3_return_value_characterization :
    (∀ (hasTxn isOpt : Bool) iters fin,
      (doInsert hasTxn isOpt iters fin).ret
        = !(doInsert hasTxn isOpt iters fin).unexpected) ∧
    (∀ (hasTxn isOpt : Bool) iters fin,
      (insertLoop hasTxn isOpt iters .ok false).status.isOk = false →
      (insertLoop hasTxn isOpt iters .ok false).unexpected = false →
      (doInsert hasTxn isOpt iters fin).ret = true) ∧
    (∀ (isOpt : Bool) iters (fin : FinOracle),
      (insertLoop true isOpt iters .ok false).status = .ok →
      (insertLoop true isOpt iters .ok false).unexpected = false →
      fin.rollbackDraw = true →
      fin.rollbackStatus = .ok →
      (doInsert true isOpt iters fin).ret = true) ∧
    (∀ iters (fin : FinOracle),
      (insertLoop true true iters .ok false).status = .ok →
      (insertLoop true true iters .ok false).unexpected = false →
      fin.rollbackDraw = false →
      fin.commitStatus.isConflict = true →
      (doInsert true true iters fin).ret = true) ∧
    (∀ (hasTxn : Bool) iters (fin : FinOracleTO),
      (doInsertTO hasTxn iters fin).ret
        = !(insertLoopTO hasTxn iters .ok false).unexpected) ∧
    (∀ rp dp nk cl vs (hasTxn : Bool) iters cs rs,
      (doWriteRandom rp dp nk cl vs hasTxn iters cs rs).ret = false
        ↔ (if (wrLoop rp dp nk cl vs iters 0 .ok).status.isOk && hasTxn
            then cs
            else (wrLoop rp dp nk cl vs iters 0 .ok).status).isOk = false) := by
  refine ⟨?_, ?_, ?_, ?_, ?_, ?_⟩
  · intro hasTxn isOpt iters fin
    simp only [doInsert]
    split_ifs <;> rfl
  · intro hasTxn isOpt iters fin hfail hu
    rw [Status.isOk_eq_false_iff] at hfail
    simp [doInsert, hu, Status.isOk_eq_true_iff, hfail]
  · intro isOpt iters fin hs hu hrb hrs
    simp [doInsert, hs, hu, hrb, hrs, Status.isOk_eq_true_iff, Status.isOk]
  · intro iters fin hs hu hrb hcc
    have h1 : fin.commitStatus.isBusy || fin.commitStatus.isTimedOut
        || fin.commitStatus.isTryAgain := hcc
    have h2 : fin.commitStatus.isOk = false := by
      cases hcs : fin.commitStatus <;> simp_all [Status.isConflict, Status.isBusy,
        Status.isTimedOut, Status.isTryAgain, Status.isOk]
    simp [doInsert, hs, hu, hrb, h1, h2, Status.isOk_eq_true_iff]
  · intro hasTxn iters fin
    simp only [doInsertTO]
    split_ifs <;> rfl
  · intro rp dp nk cl vs hasTxn iters cs rs
    simp only [doWriteRandom]
    cases h : (if (wrLoop rp dp nk cl vs iters 0 Status.ok).status.isOk && hasTxn
        then cs else (wrLoop rp dp nk cl vs iters 0 Status.ok).status).isOk <;>
      simp [h]

/-- Witness for the amended C3 at concrete inputs: the deliberate rollback
returns true on a pessimistic backend, an optimistic commit conflict
returns true, and a `DoWriteRandom` commit conflict yields a false
return. -/
theorem c3_witness :
    (doInsert true false []
        ⟨false, true, Status.ok, Status.ok, Status.ok, Status.ok⟩).ret = true ∧
    (doInsert true true []
        ⟨false, false, Status.ok, Status.busy, Status.ok, Status.ok⟩).ret = true ∧
    ((doWriteRandom 0 0 1 0 1 true [] Status.tryAgain Status.ok).ret = false
      ↔ (if (wrLoop 0 0 1 0 1 [] 0 .ok).status.isOk && true
          then Status.tryAgain
          else (wrLoop 0 0 1 0 1 [] 0 .ok).status).isOk = false) :=
  ⟨c3_return_value_characterization.2.2.1 false []
      ⟨false, true, .ok, .ok, .ok, .ok⟩ (by decide) (by decide) (by decide) (by decide),
   c3_return_value_characterization.2.2.2.1 []
      ⟨false, false, .ok, .busy, .ok, .ok⟩ (by decide) (by decide) (by decide) (by decide),
   c3_return_value_characterization.2.2.2.2.2 0 0 1 0 1 true [] Status.tryAgain Status.ok⟩

/-! ## Claim C8 -/

theorem succ_add_fail (s : Status) : succDelta s + failDelta s = 1 := by
  cases s <;> simp [succDelta, failDelta, Status.isOk]

/-- C8 counterexample: the deliberate random rollback (clean loop,
`OneIn(20)` draw true, Rollback returning OK) leaves `s` OK, so the run
increments `success_count_`, not `failure_count_` — the claim says such a
run is counted as a failure. -/
theorem c8_counterexample :
    (doInsert true false []
        ⟨false, true, Status.ok, Status.ok, Status.ok, Status.ok⟩).rollbackDrawn
      = true ∧
    succDelta (doInsert true false []
        ⟨false, true, Status.ok, Status.ok, Status.ok, Status.ok⟩).sFinal = 1 ∧
    failDelta (doInsert true false []
        ⟨false, true, Status.ok, Status.ok, Status.ok, Status.ok⟩).sFinal = 0 :=
  ⟨by decide, by decide, by decide⟩

/-- C8 (amended): every invocation of each transaction-insert entry point
bumps exactly one of the two counters by one (so `N` runs sum to `N`);
a run whose loop ends in a conflict is counted as a failure and — when
the loop left `unexpected_error` clear — is not classified unexpected;
but the deliberate random rollback, when Rollback replies OK, is counted
as a *success*. -/
theorem c8_counter_accounting :
    (∀ (hasTxn isOpt : Bool) iters fin,
      succDelta (doInsert hasTxn isOpt iters fin).sFinal
        + failDelta (doInsert hasTxn isOpt iters fin).sFinal = 1) ∧
    (∀ (hasTxn : Bool) iters fin,
      succDelta (doInsertTO hasTxn iters fin).sFinal
        + failDelta (doInsertTO hasTxn iters fin).sFinal = 1) ∧
    (∀ rp dp nk cl vs (hasTxn : Bool) iters cs rs,
      succDelta (doWriteRandom rp dp nk cl vs hasTxn iters cs rs).sCount
        + failDelta (doWriteRandom rp dp nk cl vs hasTxn iters cs rs).sCount = 1) ∧
    (∀ (hasTxn isOpt : Bool) (runs : List (List LoopIter × FinOracle)),
      (runs.map (fun p => succDelta (doInsert hasTxn isOpt p.1 p.2).sFinal)).sum
        + (runs.map (fun p => failDelta (doInsert hasTxn isOpt p.1 p.2).sFinal)).sum
        = runs.length) ∧
    (∀ (hasTxn isOpt : Bool) iters fin,
      (insertLoop hasTxn isOpt iters .ok false).status.isOk = false →
      succDelta (doInsert hasTxn isOpt iters fin).sFinal = 0 ∧
      failDelta (doInsert hasTxn isOpt iters fin).sFinal = 1) ∧
    (∀ (isOpt : Bool) iters (fin : FinOracle),
      (insertLoop true isOpt iters .ok false).status = .ok →
      fin.rollbackDraw = true →
      fin.rollbackStatus = .ok →
      succDelta (doInsert true isOpt iters fin).sFinal = 1) ∧
    (∀ (hasTxn isOpt : Bool) iters fin,
      (insertLoop hasTxn isOpt iters .ok false).status.isOk = false →
      (insertLoop hasTxn isOpt iters .ok false).unexpected = false →
      (doInsert hasTxn isOpt iters fin).unexpected = false) := by
  refine ⟨?_, ?_, ?_, ?_, ?_, ?_, ?_⟩
  · intro hasTxn isOpt iters fin
    exact succ_add_fail _
  · intro hasTxn iters fin
    exact succ_add_fail _
  · intro rp dp nk cl vs hasTxn iters cs rs
    exact succ_add_fail _
  · intro hasTxn isOpt runs
    induction runs with
    | nil => simp
    | cons hd tl ih =>
      simp only [List.map_cons, List.sum_cons, List.length_cons]
      have h := succ_add_fail (doInsert hasTxn isOpt hd.1 hd.2).sFinal
      omega
  · intro hasTxn isOpt iters fin hfail
    rw [Status.isOk_eq_false_iff] at hfail
    constructor <;>
      simp [doInsert, Status.isOk_eq_true_iff, hfail, succDelta, failDelta,
        Status.isOk_eq_false_iff]
  · intro isOpt iters fin hs hrb hrs
    simp [doInsert, hs, hrb, hrs, Status.isOk_eq_true_iff, succDelta, Status.isOk]
  · intro hasTxn isOpt iters fin hfail hu
    rw [Status.isOk_eq_false_iff] at hfail
    simp [doInsert, Status.isOk_eq_true_iff, hfail, hu]

/-- Witness for the amended C8 at concrete inputs. -/
theorem c8_witness :
    (succDelta (doInsert true false [⟨0, 0, false, Status.busy, 0, Status.ok⟩]
        ⟨false, false, Status.ok, Status.ok, Status.ok, Status.ok⟩).sFinal = 0 ∧
      failDelta (doInsert true false [⟨0, 0, false, Status.busy, 0, Status.ok⟩]
        ⟨false, false, Status.ok, Status.ok, Status.ok, Status.ok⟩).sFinal = 1) ∧
    succDelta (doInsert true true []
        ⟨true, true, Status.ok, Status.ok, Status.ok, Status.ok⟩).sFinal = 1 ∧
    (doInsert true false [⟨0, 0, false, Status.busy, 0, Status.ok⟩]
        ⟨false, false, Status.ok, Status.ok, Status.ok, Status.ok⟩).unexpected
      = false :=
  ⟨c8_counter_accounting.2.2.2.2.1 true false
      [⟨0, 0, false, Status.busy, 0, Status.ok⟩]
      ⟨false, false, .ok, .ok, .ok, .ok⟩ (by decide),
   c8_counter_accounting.2.2.2.2.2.1 true []
      ⟨true, true, .ok, .ok, .ok, .ok⟩ (by decide) (by decide) (by decide),
   c8_counter_accounting.2.2.2.2.2.2 true false
      [⟨0, 0, false, Status.busy, 0, Status.ok⟩]
      ⟨false, false, .ok, .ok, .ok, .ok⟩ (by decide) (by decide)⟩

/-! ## Claim C10 -/

theorem wr_touch_count (numSets i : Nat) (hi : i < numSets) :
    ((Finset.range numSets).filter (fun d => i < wrNumSets numSets d)).card
      = numSets - i := by
  have hset : (Finset.range numSets).filter (fun d => i < wrNumSets numSets d)
      = Finset.Ico i numSets := by
    ext a
    simp only [Finset.mem_filter, Finset.mem_range, Finset.mem_Ico, wrNumSets]
    constructor
    · rintro ⟨ha, hlt⟩
      rw [Nat.mod_eq_of_lt ha] at hlt
      omega
    · rintro ⟨h1, h2⟩
      refine ⟨h2, ?_⟩
      rw [Nat.mod_eq_of_lt h2]
      omega
  rw [hset, Nat.card_Ico]

/-- C10: the visitation plan of one `DoWriteRandom` transaction is a
shuffled copy of the contiguous `{0, …, k-1}` for `k = draw % num_sets + 1`
(membership in any shuffle of the plan is exactly `i < k`, never an
arbitrary subset); the loop visits a prefix of that plan; and among the
`num_sets` residues of the size draw, exactly `num_sets - i` make the plan
touch set `i` — strictly fewer for higher `i`. -/
theorem c10_contiguous_shuffled_set_plan :
    (∀ numSets draw (plan : List Nat),
      plan.Perm (wrPlanBase numSets draw) →
      ∀ i, i ∈ plan ↔ i < wrNumSets numSets draw) ∧
    (∀ rp dp nk cl vs (iters : List WrIter) bytes s0,
      (wrLoop rp dp nk cl vs iters bytes s0).visited.IsPrefix
        (iters.map WrIter.setI)) ∧
    (∀ numSets i, i < numSets →
      ((Finset.range numSets).filter (fun d => i < wrNumSets numSets d)).card
        = numSets - i) ∧
    (∀ numSets i, i + 1 < numSets →
      ((Finset.range numSets).filter (fun d => i + 1 < wrNumSets numSets d)).card
        < ((Finset.range numSets).filter (fun d => i < wrNumSets numSets d)).card) := by
  refine ⟨?_, ?_, ?_, ?_⟩
  · intro numSets draw plan hperm i
    rw [hperm.mem_iff, wrPlanBase, List.mem_range]
  · intro rp dp nk cl vs iters
    induction iters with
    | nil => intro bytes s0; simp [wrLoop]
    | cons hd tl ih =>
      intro bytes s0
      simp only [wrLoop, List.map_cons]
      split_ifs with h1 h2 h3 h4 h5
      · exact ⟨tl.map WrIter.setI, rfl⟩
      · exact ⟨tl.map WrIter.setI, rfl⟩
      · rcases ih bytes .ok with ⟨t, ht⟩
        exact ⟨t, by simp only [List.cons_append, ht]⟩
      · exact ⟨tl.map WrIter.setI, rfl⟩
      · exact ⟨tl.map WrIter.setI, rfl⟩
      · rcases ih (bytes + (encode hd.setI ((hd.keyDraw % nk) / 10 ^ cl)).length + vs)
          hd.opStatus with ⟨t, ht⟩
        exact ⟨t, by simp only [List.cons_append, ht]⟩
  · exact wr_touch_count
  · intro numSets i hi
    rw [wr_touch_count numSets i (by omega), wr_touch_count numSets (i + 1) hi]
    omega

/-- Witness for C10 at concrete inputs (`num_sets = 3`, size draw `4`,
so `k = 2`, plan `[1, 0]`). -/
theorem c10_witness :
    (0 ∈ [1, 0] ↔ 0 < wrNumSets 3 4) ∧
    ((Finset.range 3).filter (fun d => 1 < wrNumSets 3 d)).card = 3 - 1 ∧
    (wrLoop 0 0 1 0 1 [⟨0, 99, 0, Status.ok⟩] 0 .ok).visited.IsPrefix
      ([(⟨0, 99, 0, Status.ok⟩ : WrIter)].map WrIter.setI) :=
  ⟨c10_contiguous_shuffled_set_plan.1 3 4 [1, 0] (by decide) 0,
   c10_contiguous_shuffled_set_plan.2.2.1 3 1 (by decide),
   c10_contiguous_shuffled_set_plan.2.1 0 0 1 0 1 [⟨0, 99, 0, Status.ok⟩] 0 .ok⟩

/-! ## Claim C1: single-threaded `DoInsert` semantics

For the invariant claim the backend is a single-threaded `TransactionDB`
with no concurrent writers: reads return exactly what is visible to the
transaction (the committed store overlaid with the transaction's own
earlier puts), `Put`/`Prepare`/`Commit` succeed, and a committed
transaction installs its pending writes atomically.  The random draws of
one transaction enter as an explicit `TxnDraw`. -/

/-- The random draws of one single-threaded `DoInsert` transaction: the
increment draw (line 491: `incr = rand_->Next() % 100 + 1`), the
per-position key draws paired with the shuffled `set_vec` entries
(lines 494-502; the `OneIn(2)` get-for-update draw does not change what a
single-threaded read returns, so it is not carried), and the `OneIn(20)`
draw selecting the deliberate rollback (line 547). -/
structure TxnDraw where
  incrDraw : Nat
  visits : List (Nat × Nat)
  rollbackDraw : Bool
deriving DecidableEq, Repr

/-- The per-set loop of `DoInsert` (lines 499-538) under single-threaded
backend semantics.  `DBGet` reads the value visible in the transaction
(`storeGet` on the overlaid store); an absent key reads as 0; a stored
`0` or `ULONG_MAX` trips the sentinel guard (lines 165-169), the loop
breaks with Corruption and the transaction is later rolled back — result
`none`.  Otherwise `txn->Put` buffers `(int_value + incr) % 2^64` under
`encode set_i (key_draw % num_keys)` and the loop continues. -/
def insertLoopS (numKeys incr : Nat) (st : Store) :
    List (Nat × Nat) → Option Store
  | [] => some st
  | (setI, kd) :: rest =>
      let key := encode setI (kd % numKeys)
      match storeGet st key with
      | some v =>
          if v = 0 ∨ v = UMAX then none
          else insertLoopS numKeys incr (storePut st key ((v + incr) % W)) rest
      | none => insertLoopS numKeys incr (storePut st key ((0 + incr) % W)) rest

/-- One single-threaded `DoInsert` transaction (lines 485-601): its effect
on the committed store.  A failed loop rolls back (store unchanged); a
successful loop commits its pending writes unless the `OneIn(20)` draw
picked the deliberate rollback. -/
def doInsertStep (numKeys : Nat) (st : Store) (t : TxnDraw) : Store :=
  match insertLoopS numKeys (t.incrDraw % 100 + 1) st t.visits with
  | none => st
  | some st' => if t.rollbackDraw then st else st'

/-- A sequence of single-threaded `DoInsert` transactions, applied in
order. -/
def runInserts (numKeys : Nat) (st : Store) : List TxnDraw → Store
  | [] => st
  | t :: ts => runInserts numKeys (doInsertStep numKeys st t) ts

/-- Whether every transaction of the sequence finishes with a successful
Commit: its per-set loop succeeds and the `OneIn(20)` draw does not pick
the deliberate rollback (single-threaded Prepare/Commit then return
OK). -/
def allCommit (numKeys : Nat) : Store → List TxnDraw → Bool
  | _, [] => true
  | st, t :: ts =>
      (insertLoopS numKeys (t.incrDraw % 100 + 1) st t.visits).isSome
        && !t.rollbackDraw
        && allCommit numKeys (doInsertStep numKeys st t) ts

/-! ### Store shape and sum lemmas -/

/-- The shape of every store reachable from empty by committed
transactions: pairwise distinct keys, every key of the form
`encode s k` with `s < numSets` and `k < numKeys`, every value below
`2^64`. -/
structure GoodStore (numSets numKeys : Nat) (st : Store) : Prop where
  nodup : (st.map Prod.fst).Nodup
  keys : ∀ e ∈ st, ∃ s k, s < numSets ∧ k < numKeys ∧ e.1 = encode s k
  vals : ∀ e ∈ st, e.2 < W

theorem goodStore_nil (numSets numKeys : Nat) : GoodStore numSets numKeys [] := by
  refine ⟨List.nodup_nil, ?_, ?_⟩ <;> intro e h <;> cases h

theorem W_pos : 0 < W := by decide

theorem keyInSet_encode {setI s : Nat} (hsetI : setI ≤ 9998) (hs : s ≤ 9998)
    (k : Nat) : keyInSet (encode setI k) s = true ↔ s = setI := by
  rw [keyInSet, setPre, decide_eq_true_eq, encode_take4]
  constructor
  · intro h
    have := pad4_inj (m := setI + 1) (n := s + 1) (by omega) (by omega) h
    omega
  · intro h
    rw [h]

theorem setSum_cons (e : List Char × Nat) (st : Store) (s : Nat) :
    setSum (e :: st) s = (if keyInSet e.1 s then e.2 else 0) + setSum st s := by
  by_cases h : keyInSet e.1 s = true <;>
    simp [setSum, List.filter_cons, h]

/-- `storeGet st key = none` means no entry of `st` holds `key`. -/
theorem storeGet_none_not_mem {st : Store} {key : List Char}
    (hget : storeGet st key = none) : ∀ e ∈ st, e.1 ≠ key := by
  intro e he hc
  have hfind : st.find? (fun e => decide (e.1 = key)) = none := by
    cases hf : st.find? (fun e => decide (e.1 = key)) with
    | none => rfl
    | some p => rw [storeGet, hf] at hget; simp at hget
  have := List.find?_eq_none.mp hfind e he
  simp [hc] at this

/-- Inserting an absent key: the new entry's value joins the set sum. -/
theorem setSum_storePut_absent {st : Store} {key : List Char}
    (hget : storeGet st key = none) (v : Nat) (s : Nat) :
    setSum (storePut st key v) s
      = (if keyInSet key s then v else 0) + setSum st s := by
  have hfilter : st.filter (fun e => decide (e.1 ≠ key)) = st :=
    List.filter_eq_self.mpr
      (fun e he => by simpa using storeGet_none_not_mem hget e he)
  rw [storePut, setSum_cons, hfilter]

/-- Overwriting a present key (store keys pairwise distinct): swapping the
stored value `w` for `v`, as an addition identity. -/
theorem setSum_storePut_present {st : Store} {key : List Char} {w : Nat}
    (hnd : (st.map Prod.fst).Nodup) (hget : storeGet st key = some w)
    (v : Nat) (s : Nat) :
    setSum (storePut st key v) s + (if keyInSet key s then w else 0)
      = setSum st s + (if keyInSet key s then v else 0) := by
  induction st with
  | nil => simp [storeGet] at hget
  | cons e st' ih =>
      rw [List.map_cons, List.nodup_cons] at hnd
      by_cases hkey : e.1 = key
      · have hw : e.2 = w := by
          simp [storeGet, List.find?_cons, hkey] at hget
          exact hget
        have hfilter : st'.filter (fun e' => decide (e'.1 ≠ key)) = st' := by
          refine List.filter_eq_self.mpr ?_
          intro e' he'
          simp only [decide_eq_true_eq]
          intro hc
          exact hnd.1 (by rw [hkey, ← hc]; exact List.mem_map_of_mem Prod.fst he')
        have hfc : (e :: st').filter (fun e' => decide (e'.1 ≠ key)) = st' := by
          rw [List.filter_cons, if_neg (by simp [hkey]), hfilter]
        rw [storePut, hfc, setSum_cons, setSum_cons, ← hkey, hw]
        dsimp only
        omega
      · have hget' : storeGet st' key = some w := by
          simpa [storeGet, List.find?_cons, hkey] using hget
        have hrec := ih hnd.2 hget'
        have hfc : (e :: st').filter (fun e' => decide (e'.1 ≠ key))
            = e :: st'.filter (fun e' => decide (e'.1 ≠ key)) := by
          simp [List.filter_cons, hkey]
        rw [storePut, hfc, setSum_cons, setSum_cons, setSum_cons]
        rw [storePut, setSum_cons] at hrec
        dsimp only at hrec ⊢
        omega

theorem storeGet_cons (e : List Char × Nat) (st : Store) (key : List Char) :
    storeGet (e :: st) key
      = if e.1 = key then some e.2 else storeGet st key := by
  by_cases h : e.1 = key <;> simp [storeGet, List.find?_cons, h]

theorem storeGet_eq_none_of_not_mem {st : Store} {key : List Char}
    (h : key ∉ st.map Prod.fst) : storeGet st key = none := by
  cases hf : st.find? (fun e => decide (e.1 = key)) with
  | none => simp [storeGet, hf]
  | some p =>
      exfalso
      have hp : p.1 = key := by
        have := List.find?_some hf
        simpa using this
      exact h (hp ▸ List.mem_map_of_mem Prod.fst (List.mem_of_find?_eq_some hf))

theorem goodStore_storePut {numSets numKeys : Nat} {st : Store}
    (hg : GoodStore numSets numKeys st) {setI k : Nat}
    (hset : setI < numSets) (hk : k < numKeys) {v : Nat} (hv : v < W) :
    GoodStore numSets numKeys (storePut st (encode setI k) v) := by
  constructor
  · rw [storePut, List.map_cons, List.nodup_cons]
    refine ⟨?_, hg.nodup.sublist ((List.filter_sublist st).map Prod.fst)⟩
    intro hmem
    rw [List.mem_map] at hmem
    obtain ⟨e, he, heq⟩ := hmem
    have := List.of_mem_filter he
    simp only [decide_eq_true_eq] at this
    exact this heq
  · intro e he
    rcases List.mem_cons.mp he with h | h
    · exact ⟨setI, k, hset, hk, by rw [h]⟩
    · exact hg.keys e (List.mem_of_mem_filter h)
  · intro e he
    rcases List.mem_cons.mp he with h | h
    · rw [h]; exact hv
    · exact hg.vals e (List.mem_of_mem_filter h)

/-- The per-set loop of one committed transaction: the store stays
well-shaped and every set's mod-`2^64` total grows by
`incr * (number of visits of that set)`. -/
theorem insertLoopS_spec {numSets numKeys incr : Nat}
    (hns : numSets ≤ 9999) (hnk : 0 < numKeys) :
    ∀ (visits : List (Nat × Nat)) (st st' : Store),
      (∀ p ∈ visits, p.1 < numSets) →
      GoodStore numSets numKeys st →
      insertLoopS numKeys incr st visits = some st' →
      GoodStore numSets numKeys st' ∧
      ∀ s, s < numSets →
        setSum st' s % W
          = (setSum st s + incr * ((visits.map Prod.fst).count s)) % W := by
  intro visits
  induction visits with
  | nil =>
      intro st st' hsets hg hrun
      simp only [insertLoopS, Option.some.injEq] at hrun
      subst hrun
      exact ⟨hg, fun s hs => by simp⟩
  | cons p rest ih =>
      intro st st' hsets hg hrun
      obtain ⟨setI, kd⟩ := p
      have hsetI : setI < numSets := hsets (setI, kd) (List.mem_cons_self _ _)
      have hk : kd % numKeys < numKeys := Nat.mod_lt _ hnk
      have hrest : ∀ p ∈ rest, p.1 < numSets :=
        fun p hp => hsets p (List.mem_cons_of_mem _ hp)
      have hcount : ∀ s : Nat, (((setI, kd) :: rest).map Prod.fst).count s
          = (rest.map Prod.fst).count s + if setI = s then 1 else 0 := by
        intro s
        rw [List.map_cons, List.count_cons]
        by_cases h : setI = s <;> simp [h]
      have hkis : ∀ s, s < numSets →
          (keyInSet (encode setI (kd % numKeys)) s = true ↔ s = setI) :=
        fun s hs => keyInSet_encode (by omega) (by omega) _
      cases hget : storeGet st (encode setI (kd % numKeys)) with
      | none =>
          simp only [insertLoopS, hget] at hrun
          have hgnew := goodStore_storePut hg hsetI hk
            (v := (0 + incr) % W) (Nat.mod_lt _ W_pos)
          obtain ⟨hg', hsum'⟩ := ih _ st' hrest hgnew hrun
          refine ⟨hg', ?_⟩
          intro s hs
          have habs := setSum_storePut_absent hget ((0 + incr) % W) s
          have hrec := hsum' s hs
          rw [hcount s]
          by_cases hss : s = setI
          · rw [if_pos ((hkis s hs).mpr hss)] at habs
            rw [habs] at hrec
            rw [if_pos hss.symm, Nat.mul_add, Nat.mul_one]
            unfold W at hrec ⊢
            omega
          · rw [if_neg (fun h => hss ((hkis s hs).mp h))] at habs
            rw [habs] at hrec
            rw [if_neg (fun h => hss h.symm), Nat.add_zero]
            unfold W at hrec ⊢
            omega
      | some v =>
          simp only [insertLoopS, hget] at hrun
          by_cases hsent : v = 0 ∨ v = UMAX
          · rw [if_pos hsent] at hrun
            cases hrun
          · rw [if_neg hsent] at hrun
            have hgnew := goodStore_storePut hg hsetI hk
              (v := (v + incr) % W) (Nat.mod_lt _ W_pos)
            obtain ⟨hg', hsum'⟩ := ih _ st' hrest hgnew hrun
            refine ⟨hg', ?_⟩
            intro s hs
            have hpres := setSum_storePut_present hg.nodup hget ((v + incr) % W) s
            have hrec := hsum' s hs
            rw [hcount s]
            by_cases hss : s = setI
            · rw [if_pos ((hkis s hs).mpr hss), if_pos ((hkis s hs).mpr hss)] at hpres
              rw [if_pos hss.symm, Nat.mul_add, Nat.mul_one]
              unfold W at hpres hrec ⊢
              omega
            · rw [if_neg (fun h => hss ((hkis s hs).mp h)),
                if_neg (fun h => hss ((hkis s hs).mp h)), Nat.add_zero,
                Nat.add_zero] at hpres
              rw [hpres] at hrec
              rw [if_neg (fun h => hss h.symm), Nat.add_zero]
              unfold W at hrec ⊢
              omega

/-- One transaction step: shape is preserved and all set totals shift by
one common amount mod `2^64` (the increment if it committed, zero
otherwise). -/
theorem doInsertStep_spec {numSets numKeys : Nat}
    (hns : numSets ≤ 9999) (hnk : 0 < numKeys) (st : Store) (t : TxnDraw)
    (hperm : (t.visits.map Prod.fst).Perm (List.range numSets))
    (hg : GoodStore numSets numKeys st) :
    GoodStore numSets numKeys (doInsertStep numKeys st t) ∧
    ∃ c, ∀ s, s < numSets →
      setSum (doInsertStep numKeys st t) s % W = (setSum st s + c) % W := by
  unfold doInsertStep
  cases hrun : insertLoopS numKeys (t.incrDraw % 100 + 1) st t.visits with
  | none =>
      dsimp only
      exact ⟨hg, 0, fun s hs => by rw [Nat.add_zero]⟩
  | some st' =>
      dsimp only
      cases hrb : t.rollbackDraw with
      | true =>
          rw [if_pos rfl]
          exact ⟨hg, 0, fun s hs => by rw [Nat.add_zero]⟩
      | false =>
          rw [if_neg (by simp)]
          have hsets : ∀ p ∈ t.visits, p.1 < numSets := by
            intro p hp
            exact List.mem_range.mp
              (hperm.mem_iff.mp (List.mem_map_of_mem Prod.fst hp))
          obtain ⟨hg', hsum⟩ :=
            insertLoopS_spec hns hnk t.visits st st' hsets hg hrun
          refine ⟨hg', t.incrDraw % 100 + 1, ?_⟩
          intro s hs
          have hc : (t.visits.map Prod.fst).count s = 1 := by
            rw [hperm.count_eq]
            exact List.count_eq_one_of_mem (List.nodup_range numSets)
              (List.mem_range.mpr hs)
          have := hsum s hs
          rw [hc, Nat.mul_one] at this
          exact this

/-- Along any sequence of single-threaded transactions from a well-shaped
store with equal totals, the store stays well-shaped and all set totals
stay pairwise equal mod `2^64`. -/
theorem runInserts_spec {numSets numKeys : Nat}
    (hns : numSets ≤ 9999) (hnk : 0 < numKeys) :
    ∀ (txs : List TxnDraw) (st : Store),
      (∀ t ∈ txs, (t.visits.map Prod.fst).Perm (List.range numSets)) →
      GoodStore numSets numKeys st →
      (∀ s1 s2, s1 < numSets → s2 < numSets →
        setSum st s1 % W = setSum st s2 % W) →
      GoodStore numSets numKeys (runInserts numKeys st txs) ∧
      (∀ s1 s2, s1 < numSets → s2 < numSets →
        setSum (runInserts numKeys st txs) s1 % W
          = setSum (runInserts numKeys st txs) s2 % W) := by
  intro txs
  induction txs with
  | nil =>
      intro st _ hg heq
      exact ⟨hg, heq⟩
  | cons t ts ih =>
      intro st horders hg heq
      obtain ⟨hg1, c, hc⟩ := doInsertStep_spec hns hnk st t
        (horders t (List.mem_cons_self _ _)) hg
      have heq1 : ∀ s1 s2, s1 < numSets → s2 < numSets →
          setSum (doInsertStep numKeys st t) s1 % W
            = setSum (doInsertStep numKeys st t) s2 % W := by
        intro s1 s2 h1 h2
        rw [hc s1 h1, hc s2 h2]
        have := heq s1 s2 h1 h2
        unfold W at this ⊢
        omega
      have := ih (doInsertStep numKeys st t)
        (fun t' ht' => horders t' (List.mem_cons_of_mem _ ht')) hg1 heq1
      simpa [runInserts] using this

/-! ### Both verification paths compute the set total mod `2^64` -/

theorem scanGo_no_sentinel :
    ∀ (l : List (List Char × Nat)) (t : Nat), t < W →
      (∀ e ∈ l, ¬(e.2 = 0 ∨ e.2 = UMAX)) →
      scanGo l t = some ((t + (l.map Prod.snd).sum) % W) := by
  intro l
  induction l with
  | nil =>
      intro t ht _
      simp [scanGo, Nat.mod_eq_of_lt ht]
  | cons e rest ih =>
      intro t ht hs
      rw [scanGo, if_neg (hs e (List.mem_cons_self _ _)),
        ih ((t + e.2) % W) (Nat.mod_lt _ W_pos)
          (fun e' he' => hs e' (List.mem_cons_of_mem _ he'))]
      simp only [List.map_cons, List.sum_cons, Option.some.injEq]
      unfold W
      omega

theorem scanSet_eq {st : Store} (s : Nat)
    (hcl : ∀ e ∈ st, e.2 ≠ 0 ∧ e.2 ≠ UMAX) :
    scanSet st s = some (setSum st s % W) := by
  rw [scanSet, scanGo_no_sentinel _ 0 W_pos
    (fun e he => by
      have := hcl e (List.mem_of_mem_filter he)
      tauto)]
  rw [setSum, Nat.zero_add]

theorem modfold_range (f : Nat → Nat) :
    ∀ (l : List Nat) (t : Nat), t < W →
      l.foldl (fun t k => (t + f k) % W) t = (t + (l.map f).sum) % W := by
  intro l
  induction l with
  | nil =>
      intro t ht
      simp [Nat.mod_eq_of_lt ht]
  | cons a rest ih =>
      intro t ht
      rw [List.foldl_cons, ih _ (Nat.mod_lt _ W_pos)]
      simp only [List.map_cons, List.sum_cons]
      unfold W
      omega

theorem sum_map_update {α : Type} [DecidableEq α] (a : Nat) (g : α → Nat) :
    ∀ (l : List α) (k0 : α), l.Nodup → k0 ∈ l → g k0 = 0 →
      (l.map (fun k => if k = k0 then a else g k)).sum = a + (l.map g).sum := by
  intro l
  induction l with
  | nil =>
      intro k0 _ hm
      cases hm
  | cons h tl ih =>
      intro k0 hnd hm hg
      rw [List.nodup_cons] at hnd
      rcases List.mem_cons.mp hm with he | hm'
      · subst he
        have htl : tl.map (fun k => if k = k0 then a else g k) = tl.map g := by
          refine List.map_congr_left ?_
          intro x hx
          rw [if_neg (fun hc => hnd.1 (by rw [← hc]; exact hx))]
        simp [htl, hg]
      · have hne : h ≠ k0 := fun hc => hnd.1 (hc ▸ hm')
        simp only [List.map_cons, List.sum_cons, if_neg hne]
        rw [ih k0 hnd.2 hm' hg]
        omega

/-- Under the reachable store shape, the point-lookup pass over
`k < num_keys` reads exactly the entries carrying the set's marker. -/
theorem pointSum_eq_setSum {numSets numKeys : Nat} (hns : numSets ≤ 9999) :
    ∀ (st : Store), GoodStore numSets numKeys st →
      ∀ s, s < numSets →
        ((List.range numKeys).map
          (fun k => (storeGet st (encode s k)).getD 0)).sum = setSum st s := by
  intro st
  induction st with
  | nil =>
      intro hg s hs
      simp [storeGet, setSum]
  | cons e st' ih =>
      intro hg s hs
      obtain ⟨s0, k0, hs0, hk0, hkey⟩ := hg.keys e (List.mem_cons_self _ _)
      have hnd := hg.nodup
      rw [List.map_cons, List.nodup_cons] at hnd
      have hg' : GoodStore numSets numKeys st' :=
        ⟨hnd.2,
         fun e' he' => hg.keys e' (List.mem_cons_of_mem _ he'),
         fun e' he' => hg.vals e' (List.mem_cons_of_mem _ he')⟩
      by_cases hss : s0 = s
      · subst hss
        have hmiss : storeGet st' (encode s0 k0) = none :=
          storeGet_eq_none_of_not_mem (hkey ▸ hnd.1)
        have hlookup : ∀ k, storeGet (e :: st') (encode s0 k)
            = if k = k0 then some e.2 else storeGet st' (encode s0 k) := by
          intro k
          rw [storeGet_cons, hkey]
          by_cases hk : k = k0
          · rw [hk, if_pos rfl, if_pos rfl]
          · rw [if_neg (fun hc =>
                hk ((encode_inj (by omega) (by omega) hc).2.symm)),
              if_neg hk]
        have hmap : (List.range numKeys).map
            (fun k => (storeGet (e :: st') (encode s0 k)).getD 0)
            = (List.range numKeys).map
              (fun k => if k = k0 then e.2
                else (storeGet st' (encode s0 k)).getD 0) := by
          refine List.map_congr_left ?_
          intro k _
          rw [hlookup k]
          by_cases hk : k = k0 <;> simp [hk]
        rw [hmap, sum_map_update e.2 _ (List.range numKeys)
            k0 (List.nodup_range numKeys) (List.mem_range.mpr hk0)
            (by rw [hmiss]; rfl),
          ih hg' s0 hs, setSum_cons, hkey,
          if_pos ((keyInSet_encode (by omega) (by omega) k0).mpr rfl)]
      · have hlookup : ∀ k, storeGet (e :: st') (encode s k)
            = storeGet st' (encode s k) := by
          intro k
          rw [storeGet_cons, hkey,
            if_neg (fun hc => hss (encode_inj (by omega) (by omega) hc).1)]
        have hmap : (List.range numKeys).map
            (fun k => (storeGet (e :: st') (encode s k)).getD 0)
            = (List.range numKeys).map
              (fun k => (storeGet st' (encode s k)).getD 0) :=
          List.map_congr_left (fun k _ => by rw [hlookup k])
        rw [hmap, ih hg' s hs, setSum_cons, hkey,
          if_neg (fun hc =>
            hss (((keyInSet_encode (by omega) (by omega) k0).mp hc).symm)),
          Nat.zero_add]

theorem pointTotal_eq {numSets numKeys : Nat} (hns : numSets ≤ 9999)
    {st : Store} (hg : GoodStore numSets numKeys st) {s : Nat}
    (hs : s < numSets) :
    pointTotal st s numKeys = setSum st s % W := by
  rw [pointTotal, modfold_range _ _ 0 W_pos,
    pointSum_eq_setSum hns st hg s hs, Nat.zero_add]

/-- When every visited set's chosen path computes one common total, the
per-set loop of `Verify` runs to completion and returns OK. -/
theorem verifyGo_all_equal (st : Store) (nkps : Nat) (hasRand : Bool) (T : Nat) :
    ∀ (visits : List (Nat × Bool)) (prev : Option (Nat × Nat)),
      (∀ p ∈ visits,
        (if (decide (nkps ≠ 0) && hasRand && p.2) = true
          then some (pointTotal st p.1 nkps)
          else scanSet st p.1) = some T) →
      (prev = none ∨ ∃ pi, prev = some (pi, T)) →
      (verifyGo st nkps hasRand visits prev).status = .ok ∧
      (verifyGo st nkps hasRand visits prev).completed = true := by
  intro visits
  induction visits with
  | nil =>
      intro prev _ _
      exact ⟨rfl, rfl⟩
  | cons p rest ih =>
      intro prev htot hprev
      obtain ⟨setI, draw⟩ := p
      have hhead := htot (setI, draw) (List.mem_cons_self _ _)
      dsimp only at hhead
      have hrest := fun p hp => htot p (List.mem_cons_of_mem _ hp)
      have hih := ih (some (setI, T)) hrest (Or.inr ⟨setI, rfl⟩)
      rcases hprev with hp | ⟨pi, hp⟩ <;> subst hp
      · simp only [verifyGo, hhead]
        exact hih
      · simp only [verifyGo, hhead]
        rw [if_neg (fun hc => hc rfl)]
        exact hih

/-- C1 (amended): starting from the all-zero (empty) key space, after any
sequence of single-threaded `DoInsert` transactions (committed or not:
rolled-back and failed ones leave the store unchanged), the sum of the
stored values under every set's 4-digit marker is equal across all sets
mod `2^64`; and provided no stored value of the final store has wrapped
to `0` or reached the `ULONG_MAX` sentinel, `Verify` — any snapshot
choice, any shuffle, any mix of point-lookup and scan paths, with
`num_keys_per_set = num_keys` — returns OK.  (Without the sentinel
proviso the claim fails; see the counterexample, where after enough
committed transactions a value legitimately reaches `2^64 - 1` and
`Verify` reports Corruption.) -/
theorem c1_invariant_preservation
    (numSets numKeys : Nat) (hns : numSets ≤ 9999) (hnk : 0 < numKeys)
    (txs : List TxnDraw)
    (horders : ∀ t ∈ txs, (t.visits.map Prod.fst).Perm (List.range numSets))
    (hclean : ∀ e ∈ runInserts numKeys [] txs, e.2 ≠ 0 ∧ e.2 ≠ UMAX)
    (takeSnapshot hasRand : Bool) (visits : List (Nat × Bool))
    (hvperm : (visits.map Prod.fst).Perm (List.range numSets)) :
    (∀ s1 s2, s1 < numSets → s2 < numSets →
      setSum (runInserts numKeys [] txs) s1 % W
        = setSum (runInserts numKeys [] txs) s2 % W) ∧
    (Verify (runInserts numKeys [] txs) numKeys takeSnapshot hasRand
        visits).status = Status.ok := by
  obtain ⟨hgood, heq⟩ := runInserts_spec hns hnk txs [] horders
    (goodStore_nil numSets numKeys) (fun s1 s2 _ _ => rfl)
  refine ⟨heq, ?_⟩
  have hmem : ∀ q ∈ visits, q.1 < numSets := by
    intro q hq
    exact List.mem_range.mp (hvperm.mem_iff.mp (List.mem_map_of_mem Prod.fst hq))
  cases visits with
  | nil => simp [Verify, verifyGo]
  | cons p rest =>
      have hp1 : p.1 < numSets := hmem p (List.mem_cons_self _ _)
      have hT : ∀ q ∈ p :: rest,
          (if (decide (numKeys ≠ 0) && hasRand && q.2) = true
            then some (pointTotal (runInserts numKeys [] txs) q.1 numKeys)
            else scanSet (runInserts numKeys [] txs) q.1)
          = some (setSum (runInserts numKeys [] txs) p.1 % W) := by
        intro q hq
        have hq1 : q.1 < numSets := hmem q hq
        by_cases hc : (decide (numKeys ≠ 0) && hasRand && q.2) = true
        · rw [if_pos hc, pointTotal_eq hns hgood hq1, heq q.1 p.1 hq1 hp1]
        · rw [if_neg hc, scanSet_eq q.1 hclean, heq q.1 p.1 hq1 hp1]
      have := verifyGo_all_equal (runInserts numKeys [] txs) numKeys hasRand
        (setSum (runInserts numKeys [] txs) p.1 % W)
        (p :: rest) none hT (Or.inl rfl)
      rw [Verify]
      exact this.1

/-- Witness for the amended C1 at a concrete input: two sets, one key,
one committed transaction. -/
theorem c1_witness :
    setSum (runInserts 1 [] [⟨0, [(0, 0), (1, 0)], false⟩]) 0 % W
        = setSum (runInserts 1 [] [⟨0, [(0, 0), (1, 0)], false⟩]) 1 % W ∧
    (Verify (runInserts 1 [] [⟨0, [(0, 0), (1, 0)], false⟩]) 1 true false
        [(0, false), (1, false)]).status = Status.ok :=
  ⟨(c1_invariant_preservation 2 1 (by decide) (by decide)
      [⟨0, [(0, 0), (1, 0)], false⟩] (by decide) (by decide)
      true false [(0, false), (1, false)] (by decide)).1
      0 1 (by decide) (by decide),
   (c1_invariant_preservation 2 1 (by decide) (by decide)
      [⟨0, [(0, 0), (1, 0)], false⟩] (by decide) (by decide)
      true false [(0, false), (1, false)] (by decide)).2⟩

/-! ### C1 counterexample: a value can legitimately reach the sentinel -/

theorem runInserts_append (numKeys : Nat) (l1 l2 : List TxnDraw) :
    ∀ st, runInserts numKeys st (l1 ++ l2)
      = runInserts numKeys (runInserts numKeys st l1) l2 := by
  induction l1 with
  | nil => intro st; rfl
  | cons t ts ih =>
      intro st
      rw [List.cons_append, runInserts, runInserts, ih]

theorem allCommit_append (numKeys : Nat) (l1 l2 : List TxnDraw) :
    ∀ st, allCommit numKeys st (l1 ++ l2)
      = (allCommit numKeys st l1
          && allCommit numKeys (runInserts numKeys st l1) l2) := by
  induction l1 with
  | nil =>
      intro st
      simp [allCommit, runInserts]
  | cons t ts ih =>
      intro st
      rw [List.cons_append, allCommit, allCommit, ih, runInserts]
      simp [Bool.and_assoc]

/-- One loop pass over the single-set, single-key store: read `v`, write
`v + incr` (no wrap while `v + incr < 2^64`). -/
theorem cex_loop (incr v : Nat) (hv : ¬(v = 0 ∨ v = UMAX)) (hvW : v + incr < W) :
    insertLoopS 1 incr [(encode 0 0, v)] [(0, 0)]
      = some [(encode 0 0, v + incr)] := by
  have hget : storeGet [(encode 0 0, v)] (encode 0 0) = some v := by
    rw [storeGet_cons, if_pos rfl]
  have hput : storePut [(encode 0 0, v)] (encode 0 0) ((v + incr) % W)
      = [(encode 0 0, v + incr)] := by
    rw [storePut, Nat.mod_eq_of_lt hvW]
    simp [List.filter_cons]
  simp only [insertLoopS, Nat.zero_mod, hget]
  rw [if_neg hv, hput]

/-- The committed effect of one such transaction. -/
theorem cex_step (d v : Nat) (hv : ¬(v = 0 ∨ v = UMAX))
    (hvW : v + (d % 100 + 1) < W) :
    doInsertStep 1 [(encode 0 0, v)] ⟨d, [(0, 0)], false⟩
      = [(encode 0 0, v + (d % 100 + 1))] := by
  rw [doInsertStep]
  dsimp only
  rw [cex_loop (d % 100 + 1) v hv hvW]
  simp

/-- Iterating the `+2` transaction `n` times from the empty store leaves
key `encode 0 0` at value `2 n`, each transaction committing. -/
theorem cex_run (n : Nat) : n ≤ 2 ^ 63 - 1 →
    runInserts 1 [] (List.replicate n (⟨1, [(0, 0)], false⟩ : TxnDraw))
        = (if n = 0 then [] else [(encode 0 0, 2 * n)]) ∧
    allCommit 1 [] (List.replicate n (⟨1, [(0, 0)], false⟩ : TxnDraw)) = true := by
  induction n with
  | zero =>
      intro _
      exact ⟨rfl, rfl⟩
  | succ m ih =>
      intro hle
      obtain ⟨hrunm, hcomm⟩ := ih (by omega)
      rw [List.replicate_succ', runInserts_append, allCommit_append,
        hrunm, hcomm]
      by_cases hm0 : m = 0
      · subst hm0
        refine ⟨by decide, by decide⟩
      · rw [if_neg hm0, if_neg (Nat.succ_ne_zero m)]
        have hv : ¬(2 * m = 0 ∨ 2 * m = UMAX) := by
          unfold UMAX
          omega
        have hvW : 2 * m + (1 % 100 + 1) < W := by
          unfold W
          omega
        constructor
        · rw [runInserts, runInserts, cex_step 1 (2 * m) hv hvW,
            show 2 * m + (1 % 100 + 1) = 2 * (m + 1) by omega]
        · rw [Bool.true_and]
          have hl := cex_loop (1 % 100 + 1) (2 * m) hv hvW
          rw [allCommit]
          dsimp only
          rw [hl]
          simp [allCommit]

/-- C1 counterexample: an all-committed single-threaded sequence after
which `Verify` reports Corruption, refuting the claim as stated:
`2^63 - 1` transactions each add 2 to the one key of the one set
(reaching `2^64 - 2`, which passes every sentinel read-guard on the way),
then one final committed transaction adds 1, storing the uint64 value
`2^64 - 1 = ULONG_MAX`; the verifying scan then meets the max sentinel
and returns Corruption, not OK. -/
theorem c1_counterexample :
    allCommit 1 []
        (List.replicate (2 ^ 63 - 1) (⟨1, [(0, 0)], false⟩ : TxnDraw)
          ++ [⟨0, [(0, 0)], false⟩]) = true ∧
    (∀ t ∈ List.replicate (2 ^ 63 - 1) (⟨1, [(0, 0)], false⟩ : TxnDraw)
          ++ [⟨0, [(0, 0)], false⟩],
      (t.visits.map Prod.fst).Perm (List.range 1)) ∧
    (Verify (runInserts 1 []
        (List.replicate (2 ^ 63 - 1) (⟨1, [(0, 0)], false⟩ : TxnDraw)
          ++ [⟨0, [(0, 0)], false⟩]))
        1 false false [(0, false)]).status = Status.corruption ∧
    Status.corruption ≠ Status.ok := by
  obtain ⟨hrun, hcomm⟩ := cex_run (2 ^ 63 - 1) (le_refl _)
  have hN : ¬((2 : Nat) ^ 63 - 1 = 0) := by norm_num
  have hv : ¬(2 * (2 ^ 63 - 1) = 0 ∨ 2 * (2 ^ 63 - 1) = UMAX) := by
    unfold UMAX
    omega
  have hvW : 2 * (2 ^ 63 - 1) + (0 % 100 + 1) < W := by
    unfold W
    omega
  have hrunall : runInserts 1 []
      (List.replicate (2 ^ 63 - 1) (⟨1, [(0, 0)], false⟩ : TxnDraw)
        ++ [⟨0, [(0, 0)], false⟩])
      = [(encode 0 0, UMAX)] := by
    rw [runInserts_append, hrun, if_neg hN, runInserts, runInserts,
      cex_step 0 (2 * (2 ^ 63 - 1)) hv hvW,
      show 2 * (2 ^ 63 - 1) + (0 % 100 + 1) = UMAX by unfold UMAX; omega]
  refine ⟨?_, ?_, ?_, by decide⟩
  · rw [allCommit_append, hcomm, hrun, if_neg hN, Bool.true_and]
    have hl := cex_loop (0 % 100 + 1) (2 * (2 ^ 63 - 1)) hv hvW
    rw [allCommit]
    dsimp only
    rw [hl]
    simp [allCommit]
  · intro t ht
    rcases List.mem_append.mp ht with h | h
    · rw [List.eq_of_mem_replicate h]
      decide
    · rw [List.mem_singleton.mp h]
      decide
  · rw [hrunall]
    decide

end RTI
